import Mathlib

/-!
Shallow embedding of the habit-lightly habit tracker
(`src/app/page.tsx`, plus the message-selector variant in `lib/bandit`).

Date keys: the program represents a calendar date as the canonical local
string `YYYY-MM-DD` (`toLocalDateKey`).  Valid keys are in bijection with
civil-calendar triples (year, month, day), so the embedding works with the
triple `CivilDate` directly; `toLocalDateKey` below renders the string form.
`shiftLocalDateKey` in the source parses the key, builds a JS `Date` and adds
`days` via `setDate`; JS `Date` field normalization on a valid civil date is
exactly day-stepping in the proleptic Gregorian calendar, which is embedded
here as iterating a one-day successor/predecessor.
-/

/-- Civil calendar date: the meaning of a `YYYY-MM-DD` date key. -/
structure CivilDate where
  year : Int
  month : Nat
  day : Nat
deriving DecidableEq, Repr

/-- Gregorian leap-year rule, as implemented by the JS `Date` object. -/
def isLeap (y : Int) : Bool :=
  y % 4 == 0 && (y % 100 != 0 || y % 400 == 0)

/-- Number of days in a month (Gregorian, as implemented by JS `Date`). -/
def daysInMonth (y : Int) (m : Nat) : Nat :=
  if m = 2 then (if isLeap y then 29 else 28)
  else if m = 4 ∨ m = 6 ∨ m = 9 ∨ m = 11 then 30 else 31

/-- A civil date is valid when its month and day are in calendar range. -/
def validDate : CivilDate → Prop
  | ⟨y, m, d⟩ => 1 ≤ m ∧ m ≤ 12 ∧ 1 ≤ d ∧ d ≤ daysInMonth y m

instance (c : CivilDate) : Decidable (validDate c) :=
  match c with
  | ⟨_, _, _⟩ => inferInstanceAs (Decidable (_ ∧ _ ∧ _ ∧ _))

/-- Successor day in the civil calendar (JS `Date` normalization, one step). -/
def nextDay : CivilDate → CivilDate
  | ⟨y, m, d⟩ =>
    if d < daysInMonth y m then ⟨y, m, d + 1⟩
    else if m < 12 then ⟨y, m + 1, 1⟩
    else ⟨y + 1, 1, 1⟩

/-- Predecessor day in the civil calendar. -/
def prevDay : CivilDate → CivilDate
  | ⟨y, m, d⟩ =>
    if 1 < d then ⟨y, m, d - 1⟩
    else if 1 < m then ⟨y, m - 1, daysInMonth y (m - 1)⟩
    else ⟨y - 1, 12, 31⟩

/-- Embedding of `shiftLocalDateKey(key, days)`: parse the key, add `days`
days with JS `Date` normalization, re-render.  On the civil-date view this
is iterated day stepping. -/
def shiftLocalDateKey (c : CivilDate) (days : Int) : CivilDate :=
  if 0 ≤ days then nextDay^[days.toNat] c else prevDay^[(-days).toNat] c

/-- String of a natural number left-padded to two digits, as in
`String(x).padStart(2, "0")`. -/
def padStart2 (s : String) : String :=
  if s.length < 2 then "0" ++ s else s

/-- Embedding of `toLocalDateKey`: render `YYYY-MM-DD` (year unpadded,
month and day two-digit). -/
def toLocalDateKey (c : CivilDate) : String :=
  toString c.year ++ "-" ++ padStart2 (toString c.month) ++ "-" ++
    padStart2 (toString c.day)

/-- Embedding of the `Habit` record of `src/app/page.tsx`. -/
structure Habit where
  id : String
  name : String
  color : String
  createdAt : String
  archived : Option Bool := none
deriving DecidableEq, Repr

/-- Embedding of the `State` record: `days` is the insertion-ordered JS
object mapping date keys to the array of habit ids completed that day. -/
structure State where
  userId : String
  habits : List Habit
  days : List (CivilDate × List String)
  lastSeen : Option String := none
deriving DecidableEq, Repr

/-- Lookup `days[k] || []`: the value of the first entry with key `k`,
or the empty array when the key is absent. -/
def daysGet (days : List (CivilDate × List String)) (k : CivilDate) : List String :=
  match days.find? (fun e => decide (e.1 = k)) with
  | some e => e.2
  | none => []

/-- JS object-spread update `{...days, [k]: v}`: replace the value at an
existing key in place, otherwise append the new entry at the end. -/
def setEntry (days : List (CivilDate × List String)) (k : CivilDate)
    (v : List String) : List (CivilDate × List String) :=
  if days.any (fun e => decide (e.1 = k)) then
    days.map (fun e => if e.1 = k then (k, v) else e)
  else days ++ [(k, v)]

/-- Helper for `jsSetOfList`: keep elements not already seen, first
occurrence first. -/
def jsSetAux (seen : List String) : List String → List String
  | [] => []
  | a :: t => if a ∈ seen then jsSetAux seen t else a :: jsSetAux (a :: seen) t

/-- Spread of `new Set(arr)`: deduplicate keeping the first occurrence of
each element, preserving insertion order. -/
def jsSetOfList (l : List String) : List String := jsSetAux [] l

/-- Embedding of `toggleToday(habitId)` at an explicit date key: build the
set of that day, delete the id if present else add it, write it back. -/
def toggleToday (s : State) (habitId : String) (todayKey : CivilDate) : State :=
  let current := jsSetOfList (daysGet s.days todayKey)
  let next :=
    if habitId ∈ current then current.filter (fun b => decide ¬(b = habitId))
    else current ++ [habitId]
  { s with days := setEntry s.days todayKey next }

/-- Embedding of `markDay(habitId, dayKey, done)`: unconditionally add or
remove the id in that day's set. -/
def markDay (s : State) (habitId : String) (dayKey : CivilDate) (done : Bool) : State :=
  let current := jsSetOfList (daysGet s.days dayKey)
  let next :=
    if done then (if habitId ∈ current then current else current ++ [habitId])
    else current.filter (fun b => decide ¬(b = habitId))
  { s with days := setEntry s.days dayKey next }

/-- Embedding of `deleteHabit(id)`: drop the habit from `habits` and filter
the id out of every day's array. -/
def deleteHabit (s : State) (id : String) : State :=
  { s with
    habits := s.habits.filter (fun h => decide ¬(h.id = id)),
    days := s.days.map (fun e => (e.1, e.2.filter (fun hid => decide ¬(hid = id)))) }

/-- JS `String.prototype.trim`: drop whitespace from both ends (structural
on the character list, so it evaluates in the kernel; agrees with JS on
the names this program handles). -/
def jsTrim (s : String) : String :=
  ⟨((s.data.dropWhile Char.isWhitespace).reverse.dropWhile Char.isWhitespace).reverse⟩

/-- JS `String.prototype.toLowerCase` (ASCII case map, structural on the
character list; agrees with JS on the names this program handles). -/
def jsToLower (s : String) : String :=
  ⟨s.data.map Char.toLower⟩

/-- Embedding of `addHabit()`: trim the typed name; empty names and
case-insensitive duplicates leave the habit list unchanged, otherwise a new
habit (fresh id `freshId`, timestamp `nowIso`) is appended. -/
def addHabit (s : State) (newHabitName color freshId nowIso : String) : State :=
  if jsTrim newHabitName = "" then s
  else
    { s with
      habits :=
        if s.habits.any (fun h => jsToLower h.name == jsToLower (jsTrim newHabitName)) then
          s.habits
        else s.habits ++ [⟨freshId, jsTrim newHabitName, color, nowIso, none⟩] }

/-- Embedding of `activeHabits`: habits whose `archived` flag is not set. -/
def activeHabits (s : State) : List Habit :=
  s.habits.filter (fun h => decide ¬(h.archived = some true))

/-- Result record of `todayProgress`. -/
structure ProgressInfo where
  total : Nat
  done : Nat
  pct : Nat
deriving DecidableEq, Repr

/-- Normalization loop for binary64 rounding of a ratio `N / D`, tracking
the scaling exponent `t` (invariant: `N / D = value * 2 ^ t`): double `N`
or `D` until `2 ^ 52 * D ≤ N < 2 ^ 53 * D`.  The fuel passed by callers
always exceeds the number of steps needed, so the loop exits on the range
test. -/
def normLoop : Nat → Nat → Nat → Int → Nat × Nat × Int
  | 0, N, D, t => (N, D, t)
  | f + 1, N, D, t =>
    if N < 2 ^ 52 * D then normLoop f (2 * N) D (t + 1)
    else if 2 ^ 53 * D ≤ N then normLoop f N (2 * D) (t - 1)
    else (N, D, t)

/-- IEEE binary64 division of naturals: the exact quotient `p / q` rounded
to a 53-bit significand, nearest value, ties to even.  The result is the
exact dyadic value of the double as a significand-exponent pair
`(m, e)` meaning `m * 2 ^ e`. -/
def divDouble (p q : Nat) : Nat × Int :=
  match normLoop (2 * (p + q) + 128) p q 0 with
  | (N, D, t) =>
    let m0 := N / D
    let r := N % D
    let m :=
      if 2 * r < D then m0
      else if D < 2 * r then m0 + 1
      else if m0 % 2 = 0 then m0 else m0 + 1
    (m, -t)

/-- Number of low bits that must be rounded away so an integer significand
fits in 53 bits: the least `sh` with `mm < 2 ^ 53 * 2 ^ sh`. -/
def excessLoop : Nat → Nat → Nat → Nat
  | 0, _, sh => sh
  | f + 1, mm, sh => if mm < 2 ^ 53 * 2 ^ sh then sh else excessLoop f mm (sh + 1)

/-- Round the exact dyadic `mm * 2 ^ e` to a 53-bit significand, nearest
value, ties to even (binary64 rounding of an exact product). -/
def round53 (mm : Nat) (e : Int) : Nat × Int :=
  let sh := excessLoop mm mm 0
  if sh = 0 then (mm, e)
  else
    let m0 := mm / 2 ^ sh
    let r := mm % 2 ^ sh
    let half := 2 ^ (sh - 1)
    let m :=
      if r < half then m0
      else if half < r then m0 + 1
      else if m0 % 2 = 0 then m0 else m0 + 1
    (m, e + sh)

/-- IEEE binary64 multiplication of a double by the exact constant 100:
the exact product re-rounded to 53 bits. -/
def mulDouble100 (x : Nat × Int) : Nat × Int := round53 (100 * x.1) x.2

/-- JS `Math.round` on a nonnegative double given as its exact dyadic
value: the closest integer, halves toward positive infinity, i.e.
`floor(v + 1/2)` computed exactly. -/
def jsMathRound (x : Nat × Int) : Nat :=
  if 0 ≤ x.2 then x.1 * 2 ^ x.2.toNat
  else (2 * x.1 + 2 ^ (-x.2).toNat) / 2 ^ ((-x.2).toNat + 1)

/-- Embedding of the `todayProgress` memo: `(done / total) * 100` computed
in IEEE binary64 (the division and the multiplication each correctly
rounded to nearest, ties to even) and passed to `Math.round`; `0` when
there are no active habits. -/
def todayProgress (s : State) (todayKey : CivilDate) : ProgressInfo :=
  let active := activeHabits s
  let completedToday := jsSetOfList (daysGet s.days todayKey)
  let total := active.length
  let doneCount :=
    (completedToday.filter (fun i => active.any (fun h => h.id == i))).length
  let pct : Nat :=
    if total = 0 then 0 else jsMathRound (mulDouble100 (divDouble doneCount total))
  ⟨total, doneCount, pct⟩

/-- Fuel-indexed unfolding of the `while` loop of `getStreak`. -/
def streakAux (habitId : String) (days : List (CivilDate × List String)) :
    Nat → CivilDate → Nat
  | 0, _ => 0
  | fuel + 1, cursor =>
    if habitId ∈ daysGet days cursor then
      streakAux habitId days fuel (prevDay cursor) + 1
    else 0

/-- Embedding of `getStreak(habitId, days, todayKey)`: the loop walks back
one recorded day per successful test, so `days.length + 1` steps of fuel
always reach the exit condition (proved below). -/
def getStreak (habitId : String) (days : List (CivilDate × List String))
    (todayKey : CivilDate) : Nat :=
  streakAux habitId days (days.length + 1) todayKey

/-- Embedding of the first-run `initial` state: one default habit, empty
`days`; the random `uid()` results and the ISO timestamp are parameters. -/
def initialState (uid0 habitId0 nowIso : String) : State :=
  { userId := uid0,
    habits := [⟨habitId0, "Check-in", "#22c55e", nowIso, none⟩],
    days := [],
    lastSeen := some nowIso }

/-- The fixed flavor-string list `MESSAGES` of `src/app/page.tsx`. -/
def MESSAGES : List String :=
  [ "Your next win starts here.",
    "Small steps, steady light.",
    "Make it easy. Make it daily.",
    "Show up for five minutes—then keep going.",
    "Direction over speed. Consistency over intensity.",
    "Momentum is your superpower.",
    "Little by little becomes a lot." ]

/-- Wrap to a signed 32-bit value, as JS `| 0` / `ToInt32`. -/
def toInt32 (n : Int) : Int := (n + 2 ^ 31) % 2 ^ 32 - 2 ^ 31

/-- Embedding of `stableHash`: the rolling hash `h = (h << 5) - h + code`
over the UTF-16 code units (here: code points, which agree on the BMP
strings this program hashes), reduced to 32 bits at the end. -/
def stableHash (s : String) : Int :=
  toInt32 (s.data.foldl (fun h c => toInt32 (toInt32 h * 32) - h + (c.toNat : Int)) 0)

/-- Embedding of `pick(arr, indexSeed)`: `undefined` on an empty list, else
the entry at `abs(indexSeed) % arr.length`. -/
def pick (arr : List String) (indexSeed : Int) : Option String :=
  if arr.length = 0 then none else arr.get? (indexSeed.natAbs % arr.length)

/-- Embedding of `getDailyMessage(userId, dayKey)`. -/
def getDailyMessage (userId dayKey : String) : Option String :=
  pick MESSAGES (stableHash (userId ++ "::" ++ dayKey))

/-- The `LIGHT_MESSAGES` list of `lib/bandit`. -/
def LIGHT_MESSAGES : List String :=
  [ "Shine like you\x27re solar-powered ☀️",
    "Brightness isn’t just a theme — it\x27s your energy.",
    "The path is clear, the light is yours — walk it boldly." ]

/-- The `DARK_MESSAGES` list of `lib/bandit`. -/
def DARK_MESSAGES : List String :=
  [ "Even in the shadows, you radiate purpose.",
    "Night mode: activated. So is your ambition.",
    "Stars shine brightest when the world is darkest." ]

/-- Embedding of `getMessageForUser(userId)` from `lib/bandit`: the ambient
`prefers-color-scheme: dark` media-query result is the explicit argument
`prefersDark`. -/
def getMessageForUser (userId : String) (prefersDark : Bool) : String :=
  let source := if prefersDark then DARK_MESSAGES else LIGHT_MESSAGES
  source.getD (userId.length % source.length) ""

/-- Data-model invariant of the spec: every habit id recorded in a day
corresponds to a known habit. -/
def noOrphans (s : State) : Prop :=
  ∀ e ∈ s.days, ∀ hid ∈ e.2, ∃ h ∈ s.habits, h.id = hid

/-- Data-model invariant of the spec: no day's array repeats a habit id. -/
def daysNodup (s : State) : Prop :=
  ∀ e ∈ s.days, e.2.Nodup

instance (s : State) : Decidable (noOrphans s) := by
  unfold noOrphans; infer_instance

instance (s : State) : Decidable (daysNodup s) := by
  unfold daysNodup; infer_instance

/-- Equality of states at the abstraction of the spec's data model: all
scalar fields agree and every day's completion SET agrees (a missing day
entry is the empty set; order and duplication inside the array carry no
meaning). -/
def stateEquiv (s t : State) : Prop :=
  s.userId = t.userId ∧ s.habits = t.habits ∧ s.lastSeen = t.lastSeen ∧
    ∀ k x, x ∈ daysGet s.days k ↔ x ∈ daysGet t.days k

/-- A small concrete state used to instantiate proved theorems. -/
def sampleState : State :=
  { userId := "u",
    habits := [⟨"a", "Read", "#ef4444", "2024-01-01T00:00:00.000Z", none⟩],
    days := [(⟨2024, 1, 1⟩, ["a"])],
    lastSeen := none }

/-- A concrete state with no habits and no day records. -/
def emptyState : State :=
  { userId := "u", habits := [], days := [], lastSeen := none }

/-- A concrete state with 40 active habits of which the first 23 are
completed on 2024-01-01: the smallest shape on which the float percentage
departs from exact rational rounding. -/
def fortyState : State :=
  { userId := "u",
    habits := [
      ⟨"h1", "Habit 1", "#22c55e", "t", none⟩,
      ⟨"h2", "Habit 2", "#22c55e", "t", none⟩,
      ⟨"h3", "Habit 3", "#22c55e", "t", none⟩,
      ⟨"h4", "Habit 4", "#22c55e", "t", none⟩,
      ⟨"h5", "Habit 5", "#22c55e", "t", none⟩,
      ⟨"h6", "Habit 6", "#22c55e", "t", none⟩,
      ⟨"h7", "Habit 7", "#22c55e", "t", none⟩,
      ⟨"h8", "Habit 8", "#22c55e", "t", none⟩,
      ⟨"h9", "Habit 9", "#22c55e", "t", none⟩,
      ⟨"h10", "Habit 10", "#22c55e", "t", none⟩,
      ⟨"h11", "Habit 11", "#22c55e", "t", none⟩,
      ⟨"h12", "Habit 12", "#22c55e", "t", none⟩,
      ⟨"h13", "Habit 13", "#22c55e", "t", none⟩,
      ⟨"h14", "Habit 14", "#22c55e", "t", none⟩,
      ⟨"h15", "Habit 15", "#22c55e", "t", none⟩,
      ⟨"h16", "Habit 16", "#22c55e", "t", none⟩,
      ⟨"h17", "Habit 17", "#22c55e", "t", none⟩,
      ⟨"h18", "Habit 18", "#22c55e", "t", none⟩,
      ⟨"h19", "Habit 19", "#22c55e", "t", none⟩,
      ⟨"h20", "Habit 20", "#22c55e", "t", none⟩,
      ⟨"h21", "Habit 21", "#22c55e", "t", none⟩,
      ⟨"h22", "Habit 22", "#22c55e", "t", none⟩,
      ⟨"h23", "Habit 23", "#22c55e", "t", none⟩,
      ⟨"h24", "Habit 24", "#22c55e", "t", none⟩,
      ⟨"h25", "Habit 25", "#22c55e", "t", none⟩,
      ⟨"h26", "Habit 26", "#22c55e", "t", none⟩,
      ⟨"h27", "Habit 27", "#22c55e", "t", none⟩,
      ⟨"h28", "Habit 28", "#22c55e", "t", none⟩,
      ⟨"h29", "Habit 29", "#22c55e", "t", none⟩,
      ⟨"h30", "Habit 30", "#22c55e", "t", none⟩,
      ⟨"h31", "Habit 31", "#22c55e", "t", none⟩,
      ⟨"h32", "Habit 32", "#22c55e", "t", none⟩,
      ⟨"h33", "Habit 33", "#22c55e", "t", none⟩,
      ⟨"h34", "Habit 34", "#22c55e", "t", none⟩,
      ⟨"h35", "Habit 35", "#22c55e", "t", none⟩,
      ⟨"h36", "Habit 36", "#22c55e", "t", none⟩,
      ⟨"h37", "Habit 37", "#22c55e", "t", none⟩,
      ⟨"h38", "Habit 38", "#22c55e", "t", none⟩,
      ⟨"h39", "Habit 39", "#22c55e", "t", none⟩,
      ⟨"h40", "Habit 40", "#22c55e", "t", none⟩],
    days := [(⟨2024, 1, 1⟩, ["h1", "h2", "h3", "h4", "h5", "h6", "h7", "h8", "h9", "h10", "h11", "h12", "h13", "h14", "h15", "h16", "h17", "h18", "h19", "h20", "h21", "h22", "h23"])],
    lastSeen := none }

/-- Strict chronological order on civil dates (lexicographic). -/
def dateLt : CivilDate → CivilDate → Prop
  | ⟨y1, m1, d1⟩, ⟨y2, m2, d2⟩ =>
    y1 < y2 ∨ (y1 = y2 ∧ (m1 < m2 ∨ (m1 = m2 ∧ d1 < d2)))

/-- Concrete day records: the habit "h" done on 2024-03-06 through
2024-03-10, a gap on 2024-03-05, and an older completion on 2024-03-04. -/
def streakExampleDays : List (CivilDate × List String) :=
  [(⟨2024, 3, 10⟩, ["h"]), (⟨2024, 3, 9⟩, ["h"]), (⟨2024, 3, 8⟩, ["h"]),
   (⟨2024, 3, 7⟩, ["h"]), (⟨2024, 3, 6⟩, ["h"]), (⟨2024, 3, 4⟩, ["h"])]

theorem one_le_daysInMonth (y : Int) (m : Nat) : 1 ≤ daysInMonth y m := by
  unfold daysInMonth; split_ifs <;> omega

theorem daysInMonth_twelve (y : Int) : daysInMonth y 12 = 31 := by
  simp [daysInMonth]

theorem nextDay_valid {c : CivilDate} (h : validDate c) : validDate (nextDay c) := by
  obtain ⟨y, m, d⟩ := c
  obtain ⟨h1, h2, h3, h4⟩ := h
  simp only [nextDay]
  split_ifs with ha hb <;> simp only [validDate]
  · exact ⟨h1, h2, by omega, by omega⟩
  · exact ⟨by omega, by omega, le_refl 1, one_le_daysInMonth _ _⟩
  · exact ⟨le_refl 1, by omega, le_refl 1, one_le_daysInMonth _ _⟩

theorem prevDay_valid {c : CivilDate} (h : validDate c) : validDate (prevDay c) := by
  obtain ⟨y, m, d⟩ := c
  obtain ⟨h1, h2, h3, h4⟩ := h
  simp only [prevDay]
  split_ifs with ha hb <;> simp only [validDate]
  · exact ⟨h1, h2, by omega, by omega⟩
  · exact ⟨by omega, by omega, one_le_daysInMonth _ _, le_refl _⟩
  · exact ⟨by omega, by omega, by omega, by rw [daysInMonth_twelve]⟩

theorem prevDay_nextDay {c : CivilDate} (h : validDate c) : prevDay (nextDay c) = c := by
  obtain ⟨y, m, d⟩ := c
  obtain ⟨h1, h2, h3, h4⟩ := h
  simp only [nextDay]
  split_ifs with ha hb
  · simp only [prevDay]
    rw [if_pos (by omega)]
    simp only [CivilDate.mk.injEq]
    exact ⟨trivial, trivial, by omega⟩
  · simp only [prevDay]
    rw [if_neg (by omega), if_pos (by omega)]
    simp only [CivilDate.mk.injEq, Nat.add_sub_cancel]
    exact ⟨trivial, trivial, by omega⟩
  · simp only [prevDay]
    rw [if_neg (by omega), if_neg (by omega)]
    have hm : m = 12 := by omega
    subst hm
    have hd : d = 31 := by rw [daysInMonth_twelve] at h4 ha; omega
    simp only [CivilDate.mk.injEq]
    exact ⟨by omega, trivial, by omega⟩

theorem nextDay_prevDay {c : CivilDate} (h : validDate c) : nextDay (prevDay c) = c := by
  obtain ⟨y, m, d⟩ := c
  obtain ⟨h1, h2, h3, h4⟩ := h
  simp only [prevDay]
  split_ifs with ha hb
  · simp only [nextDay]
    rw [if_pos (by omega)]
    simp only [CivilDate.mk.injEq]
    exact ⟨trivial, trivial, by omega⟩
  · simp only [nextDay]
    rw [if_neg (by omega), if_pos (by omega)]
    simp only [CivilDate.mk.injEq]
    exact ⟨trivial, by omega, by omega⟩
  · simp only [nextDay]
    rw [daysInMonth_twelve, if_neg (by omega), if_neg (by omega)]
    simp only [CivilDate.mk.injEq]
    exact ⟨by omega, by omega, by omega⟩

theorem iterate_nextDay_valid {c : CivilDate} (h : validDate c) (k : Nat) :
    validDate (nextDay^[k] c) := by
  induction k with
  | zero => simpa using h
  | succ n ih => rw [Function.iterate_succ_apply']; exact nextDay_valid ih

theorem iterate_prevDay_valid {c : CivilDate} (h : validDate c) (k : Nat) :
    validDate (prevDay^[k] c) := by
  induction k with
  | zero => simpa using h
  | succ n ih => rw [Function.iterate_succ_apply']; exact prevDay_valid ih

theorem prevDay_iterate_nextDay {c : CivilDate} (h : validDate c) (k : Nat) :
    prevDay^[k] (nextDay^[k] c) = c := by
  induction k generalizing c with
  | zero => rfl
  | succ n ih =>
    rw [Function.iterate_succ_apply, Function.iterate_succ_apply']
    rw [prevDay_nextDay (iterate_nextDay_valid h n)]
    exact ih h

theorem nextDay_iterate_prevDay {c : CivilDate} (h : validDate c) (k : Nat) :
    nextDay^[k] (prevDay^[k] c) = c := by
  induction k generalizing c with
  | zero => rfl
  | succ n ih =>
    rw [Function.iterate_succ_apply, Function.iterate_succ_apply']
    rw [nextDay_prevDay (iterate_prevDay_valid h n)]
    exact ih h

/-- C1: shifting a valid date key by `n` days and then by `-n` days returns
the original key, for every `n` in `[-3650, 3650]`; month/year rollover and
leap years are handled (leap-day spot checks included). -/
theorem shiftLocalDateKey_round_trip :
    (∀ (k : CivilDate), validDate k → ∀ n : Int, -3650 ≤ n → n ≤ 3650 →
      shiftLocalDateKey (shiftLocalDateKey k n) (-n) = k) ∧
    shiftLocalDateKey ⟨2024, 2, 28⟩ 1 = ⟨2024, 2, 29⟩ ∧
    shiftLocalDateKey ⟨2024, 2, 29⟩ 1 = ⟨2024, 3, 1⟩ ∧
    shiftLocalDateKey ⟨2023, 2, 28⟩ 1 = ⟨2023, 3, 1⟩ ∧
    shiftLocalDateKey ⟨2024, 3, 1⟩ (-1) = ⟨2024, 2, 29⟩ ∧
    shiftLocalDateKey ⟨2024, 12, 31⟩ 1 = ⟨2025, 1, 1⟩ := by
  refine ⟨?_, by decide, by decide, by decide, by decide, by decide⟩
  intro k hk n _ _
  rcases lt_trichotomy n 0 with hneg | h0 | hpos
  · have e1 : shiftLocalDateKey k n = prevDay^[(-n).toNat] k := by
      unfold shiftLocalDateKey; rw [if_neg (by omega)]
    have e2 : ∀ x, shiftLocalDateKey x (-n) = nextDay^[(-n).toNat] x := by
      intro x; unfold shiftLocalDateKey; rw [if_pos (by omega)]
    rw [e1, e2]
    exact nextDay_iterate_prevDay hk (-n).toNat
  · subst h0
    simp [shiftLocalDateKey]
  · have e1 : shiftLocalDateKey k n = nextDay^[n.toNat] k := by
      unfold shiftLocalDateKey; rw [if_pos (by omega)]
    have e2 : ∀ x, shiftLocalDateKey x (-n) = prevDay^[n.toNat] x := by
      intro x; unfold shiftLocalDateKey
      rw [if_neg (by omega)]
      have ht : (- -n).toNat = n.toNat := by omega
      rw [ht]
    rw [e1, e2]
    exact prevDay_iterate_nextDay hk n.toNat

/-- Witness for C1 at a concrete leap-day input and delta. -/
theorem shiftLocalDateKey_round_trip_witness :
    shiftLocalDateKey (shiftLocalDateKey ⟨2024, 2, 29⟩ 40) (-40) = ⟨2024, 2, 29⟩ :=
  shiftLocalDateKey_round_trip.1 ⟨2024, 2, 29⟩ (by decide) 40 (by decide) (by decide)

theorem mem_jsSetAux :
    ∀ (l seen : List String) (x : String),
      x ∈ jsSetAux seen l ↔ (x ∈ l ∧ x ∉ seen) := by
  intro l
  induction l with
  | nil => intro seen x; simp [jsSetAux]
  | cons a t ih =>
    intro seen x
    simp only [jsSetAux]
    by_cases ha : a ∈ seen
    · rw [if_pos ha, ih]
      constructor
      · intro hx; exact ⟨List.mem_cons_of_mem _ hx.1, hx.2⟩
      · rintro ⟨hx1, hx2⟩
        rcases List.mem_cons.mp hx1 with rfl | hx1
        · exact absurd ha hx2
        · exact ⟨hx1, hx2⟩
    · rw [if_neg ha]
      by_cases hx : x = a
      · subst hx; simp [ha]
      · simp only [List.mem_cons, hx, false_or, ih, List.mem_cons]

theorem nodup_jsSetAux : ∀ (l seen : List String), (jsSetAux seen l).Nodup := by
  intro l
  induction l with
  | nil => intro seen; simp [jsSetAux]
  | cons a t ih =>
    intro seen
    simp only [jsSetAux]
    by_cases ha : a ∈ seen
    · rw [if_pos ha]; exact ih seen
    · rw [if_neg ha]
      refine List.nodup_cons.mpr ⟨?_, ih (a :: seen)⟩
      intro hc
      exact ((mem_jsSetAux t (a :: seen) a).mp hc).2 (by simp)

theorem mem_jsSetOfList (l : List String) (x : String) : x ∈ jsSetOfList l ↔ x ∈ l := by
  unfold jsSetOfList
  rw [mem_jsSetAux]
  simp

theorem nodup_jsSetOfList (l : List String) : (jsSetOfList l).Nodup :=
  nodup_jsSetAux l []

theorem find?_map_update_self {k : CivilDate} {v : List String} :
    ∀ (days : List (CivilDate × List String)),
      days.any (fun e => decide (e.1 = k)) = true →
      (days.map (fun e => if e.1 = k then (k, v) else e)).find?
        (fun e => decide (e.1 = k)) = some (k, v) := by
  intro days
  induction days with
  | nil => intro h; simp at h
  | cons e rest ih =>
    intro h
    rw [List.map_cons]
    by_cases he : e.1 = k
    · rw [if_pos he]
      exact List.find?_cons_of_pos _ (by simp)
    · rw [if_neg he, List.find?_cons_of_neg _ (by simp [he])]
      apply ih
      simp only [List.any_cons, he, decide_False, Bool.false_or] at h
      exact h

theorem find?_map_update_ne {k k' : CivilDate} {v : List String} (hkk : k' ≠ k) :
    ∀ (days : List (CivilDate × List String)),
      (days.map (fun e => if e.1 = k then (k, v) else e)).find?
        (fun e => decide (e.1 = k')) = days.find? (fun e => decide (e.1 = k')) := by
  intro days
  induction days with
  | nil => rfl
  | cons e rest ih =>
    rw [List.map_cons]
    by_cases he : e.1 = k
    · rw [if_pos he, List.find?_cons_of_neg _ (by simp [Ne.symm hkk]),
        List.find?_cons_of_neg _ (by simp [he, Ne.symm hkk])]
      exact ih
    · rw [if_neg he]
      by_cases hp : e.1 = k'
      · rw [List.find?_cons_of_pos _ (by simp [hp]), List.find?_cons_of_pos _ (by simp [hp])]
      · rw [List.find?_cons_of_neg _ (by simp [hp]), List.find?_cons_of_neg _ (by simp [hp])]
        exact ih

theorem find?_append_self {k : CivilDate} {v : List String} :
    ∀ (days : List (CivilDate × List String)),
      days.any (fun e => decide (e.1 = k)) = false →
      (days ++ [(k, v)]).find? (fun e => decide (e.1 = k)) = some (k, v) := by
  intro days
  induction days with
  | nil =>
    intro _
    have hp : (decide ((k, v).1 = k)) = true := by simp
    exact List.find?_cons_of_pos _ hp
  | cons e rest ih =>
    intro h
    simp only [List.any_cons, Bool.or_eq_false_iff] at h
    rw [List.cons_append, List.find?_cons_of_neg _ (by simp [h.1])]
    exact ih h.2

theorem find?_append_ne {k k' : CivilDate} {v : List String} (hkk : k' ≠ k) :
    ∀ (days : List (CivilDate × List String)),
      (days ++ [(k, v)]).find? (fun e => decide (e.1 = k')) =
        days.find? (fun e => decide (e.1 = k')) := by
  intro days
  induction days with
  | nil => rw [List.nil_append, List.find?_cons_of_neg _ (by simp [Ne.symm hkk])]
  | cons e rest ih =>
    rw [List.cons_append]
    by_cases hp : e.1 = k'
    · rw [List.find?_cons_of_pos _ (by simp [hp]), List.find?_cons_of_pos _ (by simp [hp])]
    · rw [List.find?_cons_of_neg _ (by simp [hp]), List.find?_cons_of_neg _ (by simp [hp])]
      exact ih

theorem daysGet_setEntry_self (days : List (CivilDate × List String)) (k : CivilDate)
    (v : List String) : daysGet (setEntry days k v) k = v := by
  unfold setEntry
  split_ifs with hx
  · unfold daysGet; rw [find?_map_update_self days hx]
  · unfold daysGet
    rw [find?_append_self days (by simp only [Bool.not_eq_true] at hx; exact hx)]

theorem daysGet_setEntry_ne {k k' : CivilDate} (hkk : k' ≠ k)
    (days : List (CivilDate × List String)) (v : List String) :
    daysGet (setEntry days k v) k' = daysGet days k' := by
  unfold setEntry
  split_ifs with hx
  · unfold daysGet; rw [find?_map_update_ne hkk days]
  · unfold daysGet; rw [find?_append_ne hkk days]

theorem mem_setEntry {e : CivilDate × List String} {days : List (CivilDate × List String)}
    {k : CivilDate} {v : List String} (h : e ∈ setEntry days k v) :
    e = (k, v) ∨ e ∈ days := by
  unfold setEntry at h
  split_ifs at h with hx
  · rcases List.mem_map.mp h with ⟨u, hu, huv⟩
    by_cases hk : u.1 = k
    · left; rw [← huv, if_pos hk]
    · right; rw [← huv, if_neg hk]; exact hu
  · rcases List.mem_append.mp h with hu | hu
    · right; exact hu
    · left; simpa using hu

/-- C2: toggling the same existing habit on the same date twice returns the
original state, at the abstraction of the data model (each day's record is
a set of ids and a missing day entry is the empty set). -/
theorem toggleToday_self_inverse (s : State) (habitId : String) (d : CivilDate)
    (hex : ∃ h ∈ s.habits, h.id = habitId) :
    stateEquiv (toggleToday (toggleToday s habitId d) habitId d) s := by
  clear hex
  refine ⟨rfl, rfl, rfl, ?_⟩
  intro k x
  have tdays : ∀ (t : State), (toggleToday t habitId d).days =
      setEntry t.days d
        (if habitId ∈ jsSetOfList (daysGet t.days d) then
          (jsSetOfList (daysGet t.days d)).filter (fun b => decide ¬(b = habitId))
        else jsSetOfList (daysGet t.days d) ++ [habitId]) := fun _ => rfl
  by_cases hk : k = d
  · subst hk
    rw [tdays (toggleToday s habitId k), tdays s, daysGet_setEntry_self,
      daysGet_setEntry_self]
    by_cases hmem : habitId ∈ jsSetOfList (daysGet s.days k)
    · rw [if_pos hmem]
      have hnot : habitId ∉ jsSetOfList
          ((jsSetOfList (daysGet s.days k)).filter (fun b => decide ¬(b = habitId))) := by
        intro hc
        have := (mem_jsSetOfList _ _).mp hc
        simp [List.mem_filter] at this
      rw [if_neg hnot]
      have hmem' : habitId ∈ daysGet s.days k := (mem_jsSetOfList _ _).mp hmem
      by_cases hx : x = habitId
      · subst hx
        simp [hmem']
      · simp [mem_jsSetOfList, List.mem_filter, hx]
    · rw [if_neg hmem]
      have hyes : habitId ∈ jsSetOfList (jsSetOfList (daysGet s.days k) ++ [habitId]) := by
        rw [mem_jsSetOfList]
        exact List.mem_append_right _ (List.mem_singleton.mpr rfl)
      rw [if_pos hyes]
      have hnmem' : habitId ∉ daysGet s.days k :=
        fun hh => hmem ((mem_jsSetOfList _ _).mpr hh)
      by_cases hx : x = habitId
      · subst hx
        simp [List.mem_filter, hnmem']
      · simp [List.mem_filter, mem_jsSetOfList, hx]
  · rw [tdays (toggleToday s habitId d), tdays s, daysGet_setEntry_ne hk,
      daysGet_setEntry_ne hk]

/-- Witness for C2 on a concrete state whose habit list contains the
toggled id. -/
theorem toggleToday_self_inverse_witness :
    stateEquiv (toggleToday (toggleToday sampleState "a" ⟨2024, 1, 1⟩) "a" ⟨2024, 1, 1⟩)
      sampleState :=
  toggleToday_self_inverse sampleState "a" ⟨2024, 1, 1⟩ (by decide)

theorem daysGet_subset_entry {days : List (CivilDate × List String)} {k : CivilDate} :
    ∀ x ∈ daysGet days k, ∃ e ∈ days, e.1 = k ∧ x ∈ e.2 := by
  intro x hx
  unfold daysGet at hx
  cases hfind : days.find? (fun e => decide (e.1 = k)) with
  | none => rw [hfind] at hx; cases hx
  | some e =>
    rw [hfind] at hx
    refine ⟨e, List.mem_of_find?_eq_some hfind, ?_, hx⟩
    have := List.find?_some hfind
    simpa using this

theorem map_eq_self_of {α : Type} {f : α → α} :
    ∀ {l : List α}, (∀ x ∈ l, f x = x) → l.map f = l := by
  intro l
  induction l with
  | nil => intro _; rfl
  | cons a t ih =>
    intro h
    rw [List.map_cons, h a (by simp), ih (fun x hx => h x (by simp [hx]))]

theorem nodup_append_singleton {l : List String} {a : String}
    (h : l.Nodup) (ha : a ∉ l) : (l ++ [a]).Nodup := by
  rw [List.nodup_append]
  refine ⟨h, List.nodup_singleton a, ?_⟩
  intro x hx hxa
  simp only [List.mem_singleton] at hxa
  subst hxa
  exact ha hx

/-- C3: `deleteHabit` leaves no habit with the deleted id, purges the id
from every day record in the same transition, keeps every other habit, and
is the identity when no habit carries the id (for states satisfying the
data model's no-orphan-references invariant). -/
theorem deleteHabit_spec (s : State) (id : String) :
    (∀ h ∈ (deleteHabit s id).habits, h.id ≠ id) ∧
    (∀ e ∈ (deleteHabit s id).days, id ∉ e.2) ∧
    (∀ h ∈ s.habits, h.id ≠ id → h ∈ (deleteHabit s id).habits) ∧
    (noOrphans s → (∀ h ∈ s.habits, h.id ≠ id) → deleteHabit s id = s) := by
  refine ⟨?_, ?_, ?_, ?_⟩
  · intro h hm
    have := List.of_mem_filter hm
    simpa using this
  · intro e he hid
    rcases List.mem_map.mp he with ⟨e0, _, hfe⟩
    rw [← hfe] at hid
    have := List.mem_filter.mp hid
    simp at this
  · intro h hm hne
    exact List.mem_filter.mpr ⟨hm, by simpa using hne⟩
  · intro hno hmiss
    obtain ⟨u, hb, dy, ls⟩ := s
    have hh : hb.filter (fun h => decide ¬(h.id = id)) = hb := by
      rw [List.filter_eq_self]
      intro h hm
      simpa using hmiss h hm
    have hd : dy.map (fun e => (e.1, e.2.filter (fun hid => decide ¬(hid = id)))) = dy := by
      apply map_eq_self_of
      intro e he
      have hfe : e.2.filter (fun hid => decide ¬(hid = id)) = e.2 := by
        rw [List.filter_eq_self]
        intro hid hm
        obtain ⟨h, hh', hhid⟩ := hno e he hid hm
        simp only [decide_eq_true_eq]
        intro heq
        exact hmiss h hh' (hhid.symm ▸ heq ▸ rfl)
      rw [hfe]
    show State.mk u (hb.filter _) (dy.map _) ls = State.mk u hb dy ls
    rw [hh, hd]

/-- Witness for C3 on a concrete state with a recorded day; deleting an
unknown id is the identity. -/
theorem deleteHabit_spec_witness : deleteHabit sampleState "zzz" = sampleState :=
  (deleteHabit_spec sampleState "zzz").2.2.2 (by decide) (by decide)

/-- C7 counterexample: on the state with no habits, toggling the unknown id
on a date inserts that id into the day's record, so the result is not the
original state, not even at the data-model (set) abstraction. -/
theorem toggle_nonexistent_not_noop :
    ¬ stateEquiv (toggleToday emptyState "x" ⟨2024, 1, 1⟩) emptyState ∧
    toggleToday emptyState "x" ⟨2024, 1, 1⟩ ≠ emptyState := by
  refine ⟨fun h => ?_, by decide⟩
  have hx := (h.2.2.2 ⟨2024, 1, 1⟩ "x").mp (by decide)
  revert hx
  decide

/-- C7 (amended): the code does not check id existence.  For an id carried
by no habit (in a state satisfying the no-orphan invariant),
`toggleCompletion` INSERTS the id into the day's record; `setCompletion`
with `done = false` is a completion-set no-op, and with `done = true` it
inserts the id.  None of these signal an error. -/
theorem nonexistent_id_behavior (s : State) (id : String) (d : CivilDate)
    (hno : noOrphans s) (hmiss : ∀ h ∈ s.habits, h.id ≠ id) :
    id ∈ daysGet (toggleToday s id d).days d ∧
    stateEquiv (markDay s id d false) s ∧
    id ∈ daysGet (markDay s id d true).days d := by
  have hidarr : id ∉ daysGet s.days d := by
    intro hmem
    obtain ⟨e, he, _, hid⟩ := daysGet_subset_entry id hmem
    obtain ⟨h, hh, hhid⟩ := hno e he id hid
    exact hmiss h hh hhid
  have hcur : id ∉ jsSetOfList (daysGet s.days d) :=
    fun hc => hidarr ((mem_jsSetOfList _ _).mp hc)
  refine ⟨?_, ⟨rfl, rfl, rfl, ?_⟩, ?_⟩
  · show id ∈ daysGet (setEntry s.days d _) d
    rw [daysGet_setEntry_self, if_neg hcur]
    exact List.mem_append_right _ (List.mem_singleton.mpr rfl)
  · intro k x
    by_cases hk : k = d
    · subst hk
      show x ∈ daysGet (setEntry s.days k _) k ↔ _
      rw [daysGet_setEntry_self, if_neg Bool.false_ne_true]
      simp only [List.mem_filter, mem_jsSetOfList, decide_eq_true_eq]
      constructor
      · exact fun hx => hx.1
      · intro hx
        exact ⟨hx, fun heq => hidarr (heq ▸ hx)⟩
    · show x ∈ daysGet (setEntry s.days d _) k ↔ _
      rw [daysGet_setEntry_ne hk]
  · show id ∈ daysGet (setEntry s.days d _) d
    rw [daysGet_setEntry_self, if_neg hcur]
    exact List.mem_append_right _ (List.mem_singleton.mpr rfl)

/-- Witness for the amended C7 on the empty state. -/
theorem nonexistent_id_behavior_witness :
    "x" ∈ daysGet (toggleToday emptyState "x" ⟨2024, 1, 1⟩).days ⟨2024, 1, 1⟩ ∧
    stateEquiv (markDay emptyState "x" ⟨2024, 1, 1⟩ false) emptyState ∧
    "x" ∈ daysGet (markDay emptyState "x" ⟨2024, 1, 1⟩ true).days ⟨2024, 1, 1⟩ :=
  nonexistent_id_behavior emptyState "x" ⟨2024, 1, 1⟩ (by decide) (by decide)

/-- C10: every state-changing operation preserves the invariant that no
habit id occurs twice inside a single day record. -/
theorem operations_preserve_daysNodup (s : State) (hnd : daysNodup s) :
    (∀ nameRaw c i t, daysNodup (addHabit s nameRaw c i t)) ∧
    (∀ id, daysNodup (deleteHabit s id)) ∧
    (∀ id d, daysNodup (toggleToday s id d)) ∧
    (∀ id d done, daysNodup (markDay s id d done)) := by
  refine ⟨?_, ?_, ?_, ?_⟩
  · intro nameRaw c i t
    have hdays : (addHabit s nameRaw c i t).days = s.days := by
      unfold addHabit
      split_ifs <;> rfl

    intro e he
    rw [hdays] at he
    exact hnd e he
  · intro id e he
    rcases List.mem_map.mp he with ⟨e0, he0, hfe⟩
    rw [← hfe]
    exact (hnd e0 he0).filter _
  · intro id d e he
    rcases mem_setEntry he with heq | he0
    · rw [heq]
      dsimp only
      split_ifs with hm
      · exact (nodup_jsSetOfList _).filter _
      · exact nodup_append_singleton (nodup_jsSetOfList _) hm
    · exact hnd e he0
  · intro id d done e he
    rcases mem_setEntry he with heq | he0
    · rw [heq]
      dsimp only
      split_ifs with hd1 hd2
      · exact nodup_jsSetOfList _
      · exact nodup_append_singleton (nodup_jsSetOfList _) hd2
      · exact (nodup_jsSetOfList _).filter _
    · exact hnd e he0

/-- Witness for C10: the preserved invariant evaluated after a toggle on a
concrete state. -/
theorem operations_preserve_daysNodup_witness :
    daysNodup (toggleToday sampleState "b" ⟨2024, 1, 2⟩) :=
  (operations_preserve_daysNodup sampleState (by decide)).2.2.1 "b" ⟨2024, 1, 2⟩

theorem addHabit_empty_noop (s : State) (nameRaw c i t : String)
    (h : jsTrim nameRaw = "") : addHabit s nameRaw c i t = s := by
  unfold addHabit
  rw [if_pos h]

theorem addHabit_dup_noop (s : State) (nameRaw c i t : String)
    (hdup : ∃ h ∈ s.habits, jsToLower h.name = jsToLower (jsTrim nameRaw)) :
    addHabit s nameRaw c i t = s := by
  obtain ⟨u, hb, dy, ls⟩ := s
  unfold addHabit
  by_cases hempty : jsTrim nameRaw = ""
  · rw [if_pos hempty]
  · rw [if_neg hempty]
    have hany : hb.any (fun h => jsToLower h.name == jsToLower (jsTrim nameRaw)) = true := by
      rw [List.any_eq_true]
      obtain ⟨h, hm, he⟩ := hdup
      exact ⟨h, hm, beq_iff_eq.mpr he⟩
    rw [if_pos hany]

theorem addHabit_appends (s : State) (nameRaw c i t : String)
    (hne : jsTrim nameRaw ≠ "")
    (hnodup : ∀ h ∈ s.habits, jsToLower h.name ≠ jsToLower (jsTrim nameRaw)) :
    addHabit s nameRaw c i t =
      { s with habits := s.habits ++ [⟨i, jsTrim nameRaw, c, t, none⟩] } := by
  unfold addHabit
  rw [if_neg hne]
  have hany : s.habits.any (fun h => jsToLower h.name == jsToLower (jsTrim nameRaw)) = false := by
    rw [List.any_eq_false]
    intro h hm
    simpa using hnodup h hm
  rw [hany]
  rfl

/-- C6: `addHabit` trims the typed name; an empty trimmed name or a
case-insensitive duplicate (archived or not) leaves the state unchanged;
otherwise exactly one habit with the fresh id, the chosen color and the
current timestamp is appended at the end; in particular adding "Read" and
then "read" never changes the habit-list length at the second step. -/
theorem addHabit_spec :
    (∀ (s : State) (nameRaw c i t : String), jsTrim nameRaw = "" →
      addHabit s nameRaw c i t = s) ∧
    (∀ (s : State) (nameRaw c i t : String),
      (∃ h ∈ s.habits, jsToLower h.name = jsToLower (jsTrim nameRaw)) →
      addHabit s nameRaw c i t = s) ∧
    (∀ (s : State) (nameRaw c i t : String), jsTrim nameRaw ≠ "" →
      (∀ h ∈ s.habits, jsToLower h.name ≠ jsToLower (jsTrim nameRaw)) →
      addHabit s nameRaw c i t =
        { s with habits := s.habits ++ [⟨i, jsTrim nameRaw, c, t, none⟩] }) ∧
    (∀ (s : State) (c i t c2 i2 t2 : String),
      ((addHabit (addHabit s "Read" c i t) "read" c2 i2 t2).habits).length =
        ((addHabit s "Read" c i t).habits).length) := by
  refine ⟨addHabit_empty_noop, addHabit_dup_noop, addHabit_appends, ?_⟩
  intro s c i t c2 i2 t2
  by_cases hdup : ∃ h ∈ s.habits, jsToLower h.name = jsToLower (jsTrim "Read")
  · rw [addHabit_dup_noop s "Read" c i t hdup]
    obtain ⟨h, hm, he⟩ := hdup
    have he2 : jsToLower (jsTrim "Read") = jsToLower (jsTrim "read") := by decide
    rw [addHabit_dup_noop s "read" c2 i2 t2 ⟨h, hm, by rw [he, he2]⟩]
  · push_neg at hdup
    rw [addHabit_appends s "Read" c i t (by decide) hdup]
    have hnm : jsToLower (Habit.mk i (jsTrim "Read") c t none).name =
        jsToLower (jsTrim "read") := by
      show jsToLower (jsTrim "Read") = jsToLower (jsTrim "read")
      decide
    rw [addHabit_dup_noop _ "read" c2 i2 t2
      ⟨⟨i, jsTrim "Read", c, t, none⟩,
        List.mem_append_right _ (List.mem_singleton.mpr rfl), hnm⟩]

/-- Witness for C6: a whitespace-only name is a no-op on a concrete state. -/
theorem addHabit_spec_witness :
    addHabit sampleState "   " "#06b6d4" "z" "2024-01-02T00:00:00.000Z" = sampleState :=
  addHabit_spec.1 sampleState "   " "#06b6d4" "z" "2024-01-02T00:00:00.000Z" (by decide)

/-- C4 (amended): `todayProgress` reports `total` = number of non-archived
habits, `done` = number of non-archived habits completed on `asOf` (equal
to the code's id count by the unique-habit-id invariant of the data
model), `percent` = `Math.round` of the IEEE binary64 evaluation of
`(done / total) * 100` — which can differ from the exact rational
`round(done / total * 100)` at ties — and `0` whenever `total = 0` (no
division by zero). -/
theorem todayProgress_spec (s : State) (asOf : CivilDate)
    (hids : (s.habits.map (fun h => h.id)).Nodup) :
    (todayProgress s asOf).total = (activeHabits s).length ∧
    (todayProgress s asOf).done =
      ((activeHabits s).filter (fun h => decide (h.id ∈ daysGet s.days asOf))).length ∧
    (todayProgress s asOf).pct =
      (if (activeHabits s).length = 0 then 0
       else jsMathRound (mulDouble100 (divDouble
         (((activeHabits s).filter
            (fun h => decide (h.id ∈ daysGet s.days asOf))).length)
         ((activeHabits s).length)))) ∧
    ((todayProgress s asOf).total = 0 → (todayProgress s asOf).pct = 0) := by
  have hA : ((activeHabits s).map (fun h => h.id)).Nodup := by
    have hsub : List.Sublist ((activeHabits s).map (fun h => h.id))
        (s.habits.map (fun h => h.id)) :=
      (List.filter_sublist _).map _
    exact hids.sublist hsub
  have hAfilter : (((activeHabits s).filter
      (fun h => decide (h.id ∈ daysGet s.days asOf))).map (fun h => h.id)).Nodup := by
    have hsub : List.Sublist
        (((activeHabits s).filter (fun h => decide (h.id ∈ daysGet s.days asOf))).map
          (fun h => h.id))
        ((activeHabits s).map (fun h => h.id)) :=
      (List.filter_sublist _).map _
    exact hA.sublist hsub
  have hfin : ((jsSetOfList (daysGet s.days asOf)).filter
      (fun i => (activeHabits s).any (fun h => h.id == i))).toFinset =
      (((activeHabits s).filter (fun h => decide (h.id ∈ daysGet s.days asOf))).map
        (fun h => h.id)).toFinset := by
    ext x
    simp only [List.mem_toFinset, List.mem_filter, mem_jsSetOfList, List.any_eq_true,
      beq_iff_eq, List.mem_map, decide_eq_true_eq]
    constructor
    · rintro ⟨hx, h, hh, rfl⟩
      exact ⟨h, ⟨hh, hx⟩, rfl⟩
    · rintro ⟨h, ⟨hh, hmem⟩, rfl⟩
      exact ⟨hmem, h, hh, rfl⟩
  have key : ((jsSetOfList (daysGet s.days asOf)).filter
      (fun i => (activeHabits s).any (fun h => h.id == i))).length =
      ((activeHabits s).filter (fun h => decide (h.id ∈ daysGet s.days asOf))).length := by
    have h1 := List.toFinset_card_of_nodup ((nodup_jsSetOfList (daysGet s.days asOf)).filter
      (fun i => (activeHabits s).any (fun h => h.id == i)))
    have h2 := List.toFinset_card_of_nodup hAfilter
    rw [hfin] at h1
    rw [h2] at h1
    rw [List.length_map] at h1
    exact h1.symm
  refine ⟨rfl, key, ?_, ?_⟩
  · show (if (activeHabits s).length = 0 then 0
        else jsMathRound (mulDouble100 (divDouble
          (((jsSetOfList (daysGet s.days asOf)).filter
            (fun i => (activeHabits s).any (fun h => h.id == i))).length)
          ((activeHabits s).length)))) = _
    rw [key]
  · intro h0
    show (if (activeHabits s).length = 0 then 0
        else jsMathRound (mulDouble100 (divDouble
          (((jsSetOfList (daysGet s.days asOf)).filter
            (fun i => (activeHabits s).any (fun h => h.id == i))).length)
          ((activeHabits s).length)))) = 0
    rw [if_pos (show (activeHabits s).length = 0 from h0)]

/-- Witness for C4: the done count evaluated on a concrete state. -/
theorem todayProgress_spec_witness :
    (todayProgress sampleState ⟨2024, 1, 1⟩).done =
      ((activeHabits sampleState).filter
        (fun h => decide (h.id ∈ daysGet sampleState.days ⟨2024, 1, 1⟩))).length :=
  (todayProgress_spec sampleState ⟨2024, 1, 1⟩ (by decide)).2.1

/-- C4 counterexample: with 40 active habits and 23 of them completed, the
double `(23 / 40) * 100` evaluates to `57.49999999999999`, so the program
reports `Math.round` = 57, while the exact rational
`round(done / total * 100) = round(57.5)` is 58: the claimed percentage
formula fails on this state. -/
theorem todayProgress_float_counterexample :
    (todayProgress fortyState ⟨2024, 1, 1⟩).total = 40 ∧
    (todayProgress fortyState ⟨2024, 1, 1⟩).done = 23 ∧
    (todayProgress fortyState ⟨2024, 1, 1⟩).pct = 57 ∧
    (todayProgress fortyState ⟨2024, 1, 1⟩).pct ≠
      (round ((((todayProgress fortyState ⟨2024, 1, 1⟩).done : ℚ)) /
        (((todayProgress fortyState ⟨2024, 1, 1⟩).total : ℚ)) * 100)).toNat := by
  have ht : (todayProgress fortyState ⟨2024, 1, 1⟩).total = 40 := by decide
  have hd : (todayProgress fortyState ⟨2024, 1, 1⟩).done = 23 := by decide
  have hp : (todayProgress fortyState ⟨2024, 1, 1⟩).pct = 57 := by decide
  refine ⟨ht, hd, hp, ?_⟩
  rw [ht, hd, hp]
  have h58 : (round (((23 : ℕ) : ℚ) / ((40 : ℕ) : ℚ) * 100)).toNat = 58 := by
    norm_num [round_eq]
    decide
  rw [h58]
  decide

theorem dateLt_irrefl (a : CivilDate) : ¬ dateLt a a := by
  obtain ⟨y, m, d⟩ := a
  simp only [dateLt]
  omega

theorem dateLt_trans {a b c : CivilDate} (h1 : dateLt a b) (h2 : dateLt b c) :
    dateLt a c := by
  obtain ⟨y1, m1, d1⟩ := a
  obtain ⟨y2, m2, d2⟩ := b
  obtain ⟨y3, m3, d3⟩ := c
  simp only [dateLt] at h1 h2 ⊢
  omega

theorem prevDay_dateLt {c : CivilDate} (h : validDate c) : dateLt (prevDay c) c := by
  obtain ⟨y, m, d⟩ := c
  obtain ⟨h1, h2, h3, h4⟩ := h
  simp only [prevDay]
  split_ifs with ha hb <;> simp only [dateLt]
  · exact Or.inr ⟨trivial, Or.inr ⟨trivial, by omega⟩⟩
  · exact Or.inr ⟨trivial, Or.inl (by omega)⟩
  · exact Or.inl (by omega)

theorem iterate_prevDay_strict {c : CivilDate} (h : validDate c) :
    ∀ {i j : Nat}, i < j → dateLt (prevDay^[j] c) (prevDay^[i] c) := by
  have hstep : ∀ k, dateLt (prevDay^[k + 1] c) (prevDay^[k] c) := by
    intro k
    rw [Function.iterate_succ_apply']
    exact prevDay_dateLt (iterate_prevDay_valid h k)
  intro i j hij
  induction j with
  | zero => omega
  | succ n ih =>
    rcases Nat.lt_succ_iff_lt_or_eq.mp hij with h' | h'
    · exact dateLt_trans (hstep n) (ih h')
    · subst h'
      exact hstep i

/-- The backward walk from a valid date must leave the recorded dates
within `days.length` steps: the visited dates are pairwise distinct, and
every day on which the habit is recorded is a key of `days`. -/
theorem exists_gap (habitId : String) (days : List (CivilDate × List String))
    {asOf : CivilDate} (h : validDate asOf) :
    ∃ n, n ≤ days.length ∧ habitId ∉ daysGet days (prevDay^[n] asOf) := by
  by_contra hall
  push_neg at hall
  have hmemkeys : ∀ n, n ≤ days.length → (prevDay^[n] asOf) ∈ days.map Prod.fst := by
    intro n hn
    obtain ⟨e, he, hek, _⟩ := daysGet_subset_entry habitId (hall n hn)
    exact hek ▸ List.mem_map.mpr ⟨e, he, rfl⟩
  have hnodup : ((List.range (days.length + 1)).map (fun n => prevDay^[n] asOf)).Nodup := by
    apply List.Nodup.map_on ?_ (List.nodup_range _)
    intro i _ j _ hEq
    by_contra hne
    rcases Nat.lt_or_ge i j with hij | hij
    · exact dateLt_irrefl _ (hEq ▸ iterate_prevDay_strict h hij)
    · have hij' : j < i := by omega
      exact dateLt_irrefl _ (hEq ▸ iterate_prevDay_strict h hij')
  have hsub : ((List.range (days.length + 1)).map (fun n => prevDay^[n] asOf)).toFinset ⊆
      (days.map Prod.fst).toFinset := by
    intro x hx
    rcases List.mem_map.mp (List.mem_toFinset.mp hx) with ⟨n, hn, rfl⟩
    exact List.mem_toFinset.mpr
      (hmemkeys n (by simpa [Nat.lt_succ_iff] using List.mem_range.mp hn))
  have h1 : ((List.range (days.length + 1)).map (fun n => prevDay^[n] asOf)).toFinset.card =
      days.length + 1 := by
    rw [List.toFinset_card_of_nodup hnodup, List.length_map, List.length_range]
  have h2 := Finset.card_le_card hsub
  have h3 : (days.map Prod.fst).toFinset.card ≤ days.length := by
    have := List.toFinset_card_le (days.map Prod.fst)
    simpa [List.length_map] using this
  omega

theorem streakAux_spec (habitId : String) (days : List (CivilDate × List String)) :
    ∀ (fuel : Nat) (cursor : CivilDate),
      (∃ n, n < fuel ∧ habitId ∉ daysGet days (prevDay^[n] cursor)) →
      ((∀ i < streakAux habitId days fuel cursor,
          habitId ∈ daysGet days (prevDay^[i] cursor)) ∧
        habitId ∉ daysGet days (prevDay^[streakAux habitId days fuel cursor] cursor)) := by
  intro fuel
  induction fuel with
  | zero =>
    intro cursor h
    obtain ⟨n, hn, _⟩ := h
    exact absurd hn (Nat.not_lt_zero n)
  | succ f ih =>
    intro cursor h
    by_cases hc : habitId ∈ daysGet days cursor
    · have hstep : streakAux habitId days (f + 1) cursor =
          streakAux habitId days f (prevDay cursor) + 1 := by
        simp [streakAux, hc]
      rw [hstep]
      obtain ⟨n, hn, hnot⟩ := h
      have hn0 : n ≠ 0 := by
        intro h0
        subst h0
        simp only [Function.iterate_zero_apply] at hnot
        exact hnot hc
      obtain ⟨m, rfl⟩ := Nat.exists_eq_succ_of_ne_zero hn0
      have hpre : ∃ n', n' < f ∧ habitId ∉ daysGet days (prevDay^[n'] (prevDay cursor)) := by
        refine ⟨m, by omega, ?_⟩
        rw [← Function.iterate_succ_apply]
        exact hnot
      obtain ⟨ih1, ih2⟩ := ih (prevDay cursor) hpre
      constructor
      · intro i hi
        cases i with
        | zero => simpa using hc
        | succ j =>
          rw [Function.iterate_succ_apply]
          exact ih1 j (by omega)
      · rw [Function.iterate_succ_apply]
        exact ih2
    · have hstep : streakAux habitId days (f + 1) cursor = 0 := by
        simp [streakAux, hc]
      rw [hstep]
      exact ⟨fun i hi => absurd hi (by omega), by simpa using hc⟩

/-- C5: `getStreak` terminates within its `days.length + 1` loop bound and
returns the count of consecutive completed days walking backward from
`asOf` up to the first gap (so 0 when `asOf` itself is not completed); on
the concrete records with `asOf` and the previous 4 days completed and a
gap before, it returns 5. -/
theorem getStreak_spec :
    (∀ (habitId : String) (days : List (CivilDate × List String)) (asOf : CivilDate),
      validDate asOf →
      (∀ i < getStreak habitId days asOf, habitId ∈ daysGet days (prevDay^[i] asOf)) ∧
      habitId ∉ daysGet days (prevDay^[getStreak habitId days asOf] asOf)) ∧
    getStreak "h" streakExampleDays ⟨2024, 3, 10⟩ = 5 := by
  constructor
  · intro habitId days asOf hv
    unfold getStreak
    apply streakAux_spec
    obtain ⟨n, hn, hnot⟩ := exists_gap habitId days hv
    exact ⟨n, by omega, hnot⟩
  · decide

/-- Witness for C5: the gap condition at the returned streak, evaluated on
the concrete records. -/
theorem getStreak_spec_witness :
    "h" ∉ daysGet streakExampleDays
      (prevDay^[getStreak "h" streakExampleDays ⟨2024, 3, 10⟩] ⟨2024, 3, 10⟩) :=
  (getStreak_spec.1 "h" streakExampleDays ⟨2024, 3, 10⟩ (by decide)).2

/-- C8 counterexample: the repository's `lib/bandit` message selector
returns different messages for the same user (and the same day) depending
on the ambient dark-mode media query, so the displayed daily message is not
a function of `(userId, dateKey)` alone. -/
theorem getMessageForUser_depends_on_theme :
    getMessageForUser "abc" true ≠ getMessageForUser "abc" false := by decide

/-- C8 (amended): `getDailyMessage` of the tracker page is deterministic
and equals the `MESSAGES` entry at index
`abs(stableHash(userId ++ "::" ++ dateKey)) mod 7`, always one of the seven
fixed strings; the `lib/bandit` variant `getMessageForUser`, however, also
depends on the ambient dark-mode preference (and ignores the date key). -/
theorem getDailyMessage_spec :
    (∀ userId dayKey : String,
      getDailyMessage userId dayKey =
        MESSAGES.get? ((stableHash (userId ++ "::" ++ dayKey)).natAbs % MESSAGES.length)) ∧
    (∀ userId dayKey : String, ∃ m ∈ MESSAGES, getDailyMessage userId dayKey = some m) ∧
    (∃ u : String, ∃ pd pd' : Bool, getMessageForUser u pd ≠ getMessageForUser u pd') := by
  refine ⟨?_, ?_, ⟨"abc", true, false, by decide⟩⟩
  · intro u d
    unfold getDailyMessage pick
    rw [if_neg (by decide)]
  · intro u d
    have hlen : (stableHash (u ++ "::" ++ d)).natAbs % MESSAGES.length < MESSAGES.length :=
      Nat.mod_lt _ (by decide)
    refine ⟨MESSAGES.get ⟨(stableHash (u ++ "::" ++ d)).natAbs % MESSAGES.length, hlen⟩,
      List.get_mem _ _ _, ?_⟩
    unfold getDailyMessage pick
    rw [if_neg (by decide)]
    exact List.get?_eq_get hlen

/-- C9 counterexample: from the first-run state — which already contains
the default "Check-in" habit — adding "Hydrate" and toggling it done today
gives two active habits, so `todayProgress` cannot report `total = 1` (the
actual report is total 2, done 1, 50 percent). -/
theorem newState_end_to_end_counterexample :
    (todayProgress
      (toggleToday (addHabit (initialState "u" "h0" "t0") "Hydrate" "#3b82f6" "h1" "t1")
        "h1" ⟨2024, 1, 2⟩) ⟨2024, 1, 2⟩).total = 2 ∧
    (todayProgress
      (toggleToday (addHabit (initialState "u" "h0" "t0") "Hydrate" "#3b82f6" "h1" "t1")
        "h1" ⟨2024, 1, 2⟩) ⟨2024, 1, 2⟩).total ≠ 1 := by
  constructor <;> decide

set_option maxHeartbeats 1600000 in
/-- C9 (amended): starting from the first-run state (default "Check-in"
habit, empty days), adding "Hydrate" and toggling it done for today yields
`todayProgress` = {total 2, done 1, percent 50} and a streak of 1 for the
new habit, for any fresh identifiers and timestamps and any valid today. -/
theorem newState_end_to_end (uid0 h0 now0 c h1 now1 : String) (today : CivilDate)
    (hv : validDate today) :
    todayProgress
        (toggleToday (addHabit (initialState uid0 h0 now0) "Hydrate" c h1 now1) h1 today)
        today = ⟨2, 1, 50⟩ ∧
    getStreak h1
        (toggleToday (addHabit (initialState uid0 h0 now0) "Hydrate" c h1 now1) h1 today).days
        today = 1 := by
  have hget : daysGet [((today : CivilDate), ([h1] : List String))] today = [h1] := by
    unfold daysGet
    rw [List.find?_cons_of_pos _ (by simp)]
  have hne : prevDay today ≠ today := by
    intro he
    have hlt := prevDay_dateLt hv
    rw [he] at hlt
    exact dateLt_irrefl today hlt
  have hget2 : daysGet [((today : CivilDate), ([h1] : List String))] (prevDay today) = [] := by
    unfold daysGet
    rw [List.find?_cons_of_neg _ (by simp [Ne.symm hne])]
    rfl
  have hS : toggleToday (addHabit (initialState uid0 h0 now0) "Hydrate" c h1 now1) h1 today =
      { userId := uid0,
        habits := [⟨h0, "Check-in", "#22c55e", now0, none⟩, ⟨h1, "Hydrate", c, now1, none⟩],
        days := [(today, [h1])],
        lastSeen := some now0 } := rfl
  rw [hS]
  have hdone : (List.filter
      (fun i => (activeHabits
        { userId := uid0,
          habits := [⟨h0, "Check-in", "#22c55e", now0, none⟩, ⟨h1, "Hydrate", c, now1, none⟩],
          days := [(today, [h1])],
          lastSeen := some now0 }).any fun h => h.id == i)
      (jsSetOfList (daysGet [(today, [h1])] today))).length = 1 := by
    rw [hget]
    have hany : ((activeHabits
        { userId := uid0,
          habits := [⟨h0, "Check-in", "#22c55e", now0, none⟩, ⟨h1, "Hydrate", c, now1, none⟩],
          days := [(today, [h1])],
          lastSeen := some now0 }).any fun h => h.id == h1) = true := by
      apply List.any_eq_true.mpr
      refine ⟨⟨h1, "Hydrate", c, now1, none⟩, ?_, by simp⟩
      show (⟨h1, "Hydrate", c, now1, none⟩ : Habit) ∈
        [(⟨h0, "Check-in", "#22c55e", now0, none⟩ : Habit), ⟨h1, "Hydrate", c, now1, none⟩]
      simp
    show (List.filter _ [h1]).length = 1
    simp only [List.filter_cons, List.filter_nil]
    rw [if_pos hany]
    rfl
  constructor
  · have htot : (todayProgress
        { userId := uid0,
          habits := [⟨h0, "Check-in", "#22c55e", now0, none⟩, ⟨h1, "Hydrate", c, now1, none⟩],
          days := [(today, [h1])],
          lastSeen := some now0 } today).total = 2 := rfl
    have hdn : (todayProgress
        { userId := uid0,
          habits := [⟨h0, "Check-in", "#22c55e", now0, none⟩, ⟨h1, "Hydrate", c, now1, none⟩],
          days := [(today, [h1])],
          lastSeen := some now0 } today).done = 1 := hdone
    have hpc : (todayProgress
        { userId := uid0,
          habits := [⟨h0, "Check-in", "#22c55e", now0, none⟩, ⟨h1, "Hydrate", c, now1, none⟩],
          days := [(today, [h1])],
          lastSeen := some now0 } today).pct = 50 := by
      show (if (activeHabits
          { userId := uid0,
            habits := [⟨h0, "Check-in", "#22c55e", now0, none⟩, ⟨h1, "Hydrate", c, now1, none⟩],
            days := [(today, [h1])],
            lastSeen := some now0 }).length = 0 then 0
        else jsMathRound (mulDouble100 (divDouble
          ((List.filter
            (fun i => (activeHabits
              { userId := uid0,
                habits := [⟨h0, "Check-in", "#22c55e", now0, none⟩,
                  ⟨h1, "Hydrate", c, now1, none⟩],
                days := [(today, [h1])],
                lastSeen := some now0 }).any fun h => h.id == i)
            (jsSetOfList (daysGet [(today, [h1])] today))).length)
          ((activeHabits
            { userId := uid0,
              habits := [⟨h0, "Check-in", "#22c55e", now0, none⟩,
                ⟨h1, "Hydrate", c, now1, none⟩],
              days := [(today, [h1])],
              lastSeen := some now0 }).length)))) = 50
      have hlen : (activeHabits
          { userId := uid0,
            habits := [⟨h0, "Check-in", "#22c55e", now0, none⟩, ⟨h1, "Hydrate", c, now1, none⟩],
            days := [(today, [h1])],
            lastSeen := some now0 }).length = 2 := rfl
      rw [hdone, hlen, if_neg (by decide)]
      decide
    have heta : todayProgress
        { userId := uid0,
          habits := [⟨h0, "Check-in", "#22c55e", now0, none⟩, ⟨h1, "Hydrate", c, now1, none⟩],
          days := [(today, [h1])],
          lastSeen := some now0 } today =
        ⟨(todayProgress
            { userId := uid0,
              habits := [⟨h0, "Check-in", "#22c55e", now0, none⟩,
                ⟨h1, "Hydrate", c, now1, none⟩],
              days := [(today, [h1])],
              lastSeen := some now0 } today).total,
          (todayProgress
            { userId := uid0,
              habits := [⟨h0, "Check-in", "#22c55e", now0, none⟩,
                ⟨h1, "Hydrate", c, now1, none⟩],
              days := [(today, [h1])],
              lastSeen := some now0 } today).done,
          (todayProgress
            { userId := uid0,
              habits := [⟨h0, "Check-in", "#22c55e", now0, none⟩,
                ⟨h1, "Hydrate", c, now1, none⟩],
              days := [(today, [h1])],
              lastSeen := some now0 } today).pct⟩ := rfl
    rw [heta, htot, hdn, hpc]
  · have hm1 : h1 ∈ daysGet [((today : CivilDate), ([h1] : List String))] today := by
      rw [hget]
      simp
    have hm2 : h1 ∉ daysGet [((today : CivilDate), ([h1] : List String))] (prevDay today) := by
      rw [hget2]
      simp
    have hA : streakAux h1 [(today, [h1])] 2 today =
        streakAux h1 [(today, [h1])] 1 (prevDay today) + 1 := by
      show streakAux h1 [(today, [h1])] (1 + 1) today = _
      simp [streakAux, hm1]
    have hB : streakAux h1 [(today, [h1])] 1 (prevDay today) = 0 := by
      show streakAux h1 [(today, [h1])] (0 + 1) (prevDay today) = 0
      simp [streakAux, hm2]
    show streakAux h1 [(today, [h1])] 2 today = 1
    rw [hA, hB]

/-- Witness for the amended C9 at concrete identifiers and a concrete day. -/
theorem newState_end_to_end_witness :
    todayProgress
        (toggleToday (addHabit (initialState "u" "h0" "t0") "Hydrate" "#3b82f6" "h1" "t1")
          "h1" ⟨2024, 1, 2⟩) ⟨2024, 1, 2⟩ = ⟨2, 1, 50⟩ ∧
    getStreak "h1"
        (toggleToday (addHabit (initialState "u" "h0" "t0") "Hydrate" "#3b82f6" "h1" "t1")
          "h1" ⟨2024, 1, 2⟩).days ⟨2024, 1, 2⟩ = 1 :=
  newState_end_to_end "u" "h0" "t0" "#3b82f6" "h1" "t1" ⟨2024, 1, 2⟩ (by decide)
